import Mathlib

/-!
Verification of the options-strategy analytics engine of `opt-tracker-vite`
(`src/utils/strategyCalculations.js`, final revision, and
`src/utils/chartUtils.js`).

Modelling conventions (shallow embedding):
* JavaScript numbers are modelled by `ℚ` (the engine only ever adds,
  subtracts, multiplies, divides and compares finitely many decimal inputs).
* A loosely-typed numeric field holds `Option ℚ` (resp. `Option ℤ` for the
  contract count): `none` models a field whose `parseFloat` / `parseInt`
  yields `NaN`.
* The JS idiom `parseFloat(x) || 0` maps both `NaN` and `0` to `0`, hence
  `Option.getD 0`; the idiom `parseInt(x) || 1` maps both `NaN` and `0`
  to `1`.
* `'Unlimited'` mixed with numbers is modelled by the sum type `MetricVal`.
* `Array.prototype.sort` (ES2019+: stable) with comparator
  `(a, b) => a - b` is modelled by the stable `List.insertionSort` on the
  key; `[...new Set(l)]` followed by an ascending sort is modelled by
  `List.dedup` followed by the same sort (both produce the strictly
  ascending enumeration of the same value set, so the resulting lists are
  equal).
-/

namespace OptTracker

inductive Action where
  | Buy
  | Sell
deriving DecidableEq

inductive OptionType where
  | Call
  | Put
deriving DecidableEq

/-- String used by the source when interpolating the leg's `type` field. -/
def OptionType.str : OptionType → String
  | OptionType.Call => "Call"
  | OptionType.Put => "Put"

/-- One option leg as consumed by the engine: loosely typed numeric fields,
`none` standing for a field that does not parse (`NaN`). -/
structure Leg where
  action : Action
  type : OptionType
  strike : Option ℚ
  premium : Option ℚ
  contracts : Option ℤ
deriving DecidableEq

/-- `parseFloat(leg.strike) || 0`. -/
def strikeNum (leg : Leg) : ℚ := leg.strike.getD 0

/-- `parseFloat(leg.premium) || 0`. -/
def premiumNum (leg : Leg) : ℚ := leg.premium.getD 0

/-- `parseInt(leg.contracts) || 1`: `NaN` and `0` both fall back to `1`,
negative counts pass through. -/
def contractsNum (leg : Leg) : ℤ :=
  match leg.contracts with
  | none => 1
  | some n => if n = 0 then 1 else n

/-- `parseFloat(leg.strike)` with no fallback, as used by `detectStrategy`
for sorting and uniqueness tests; `⊥` models `NaN`.  (JS sorts `NaN` with an
implementation-defined order; the model places it first.  No theorem below
depends on the order of unparsable strikes.) -/
def strikeRaw (leg : Leg) : WithBot ℚ :=
  match leg.strike with
  | none => ⊥
  | some q => (q : WithBot ℚ)

/-- `calculateLegPayoff(leg, assetPrice)` from `strategyCalculations.js`
(final revision, lines 667–684). -/
def calculateLegPayoff (leg : Leg) (assetPrice : ℚ) : ℚ :=
  let strike := strikeNum leg
  let premium := premiumNum leg
  let contracts := contractsNum leg
  let payoff : ℚ :=
    match leg.type with
    | OptionType.Call => max 0 (assetPrice - strike) - premium
    | OptionType.Put => max 0 (strike - assetPrice) - premium
  let signed : ℚ :=
    match leg.action with
    | Action.Sell => -payoff
    | Action.Buy => payoff
  signed * (contracts : ℚ)

/-- `calculateStrategyPayoff(legs, assetPrice)` (lines 692–698): running sum
of the per-leg payoffs. -/
def calculateStrategyPayoff (legs : List Leg) (assetPrice : ℚ) : ℚ :=
  legs.foldl (fun acc leg => acc + calculateLegPayoff leg assetPrice) 0

/-- Per-leg payoff as computed inline by `generatePayoffPoints` in
`chartUtils.js` (lines 44–64).  Unlike `calculateLegPayoff`, the strike and
premium are read with bare `parseFloat` (no `|| 0` fallback), so an
unparsable field makes the whole contribution `NaN`, modelled as `none`. -/
def chartLegPayoff (leg : Leg) (price : ℚ) : Option ℚ :=
  match leg.strike, leg.premium with
  | some strike, some premium =>
    let contracts : ℚ := (contractsNum leg : ℚ)
    let intrinsicValue : ℚ :=
      match leg.type with
      | OptionType.Put => max 0 (strike - price)
      | OptionType.Call => max 0 (price - strike)
    some (match leg.action with
      | Action.Buy => (intrinsicValue - premium) * contracts
      | Action.Sell => (premium - intrinsicValue) * contracts)
  | _, _ => none

/-- The chart builder's `totalPayoff` accumulation over all legs; `NaN`
(`none`) is absorbing, as in IEEE / JS addition. -/
def chartStrategyPayoff (legs : List Leg) (price : ℚ) : Option ℚ :=
  legs.foldl (fun acc leg =>
    match acc, chartLegPayoff leg price with
    | some a, some b => some (a + b)
    | _, _ => none) (some 0)

/-- Stable ascending sort by parsed strike, the model of
`sort((a, b) => parseFloat(a.strike) - parseFloat(b.strike))`. -/
def sortLegsByStrike (legs : List Leg) : List Leg :=
  List.insertionSort (fun a b => strikeRaw a ≤ strikeRaw b) legs

/-- `legs.map(l => parseFloat(l.strike)).filter(s => !isNaN(s) && s > 0)`. -/
def validStrikes (legs : List Leg) : List ℚ :=
  (legs.filterMap (fun leg => leg.strike)).filter (fun s => 0 < s)

/-- JS strict equality `===` on parsed strikes: `NaN === NaN` is false. -/
def jsEq (a b : WithBot ℚ) : Bool :=
  decide (¬(a = ⊥ ∨ b = ⊥) ∧ a = b)

/-- Classification descriptor returned by `detectStrategy`. -/
structure StrategyDetails where
  name : String
  type : String
  direction : String
  isCredit : Bool
  isReverse : Bool
  optionType : String
deriving DecidableEq

/-- The `optionType` local of `detectStrategy` (lines 719–726): `"Calls"`
when every leg is a call (`callLegs.length === numLegs`), `"Puts"` when
every leg is a put, else `"Mixed"`. -/
def optionCompOf (legs : List Leg) : String :=
  if (legs.filter (fun leg => leg.type = OptionType.Call)).length = legs.length then "Calls"
  else if (legs.filter (fun leg => leg.type = OptionType.Put)).length = legs.length then "Puts"
  else "Mixed"

/-- The `uniqueStrikes` local of `detectStrategy` (lines 709–710):
`[...new Set(strikes.sort((a, b) => a - b))]`. -/
def uniqueStrikesOf (legs : List Leg) : List (WithBot ℚ) :=
  (List.insertionSort (fun a b : WithBot ℚ => a ≤ b) (legs.map strikeRaw)).dedup

/-- Net premium: Sell adds `premium·contracts`, Buy subtracts it.  The same
accumulation appears in `detectStrategy` (lines 729–738) and in
`calculateStrategyMetrics` (lines 846–851). -/
def netPremiumOf (legs : List Leg) : ℚ :=
  legs.foldl (fun acc leg =>
    acc + premiumNum leg * (contractsNum leg : ℚ) *
      (match leg.action with
        | Action.Sell => 1
        | Action.Buy => -1)) 0

/-- `detectStrategy(legs)` from `strategyCalculations.js` (final revision,
lines 705–833).  The mutable `name` / `type` / `isReverse` triple is built
branch by branch; every branch that the source leaves untouched keeps the
defaults `("Custom Strategy", "Custom", false)`.  The `match` fallbacks on
sorted lists are unreachable (sorting preserves length) and also return the
defaults. -/
def detectStrategy (legs : List Leg) : StrategyDetails :=
  let numLegs := legs.length
  let uniqueStrikes := uniqueStrikesOf legs
  let optionType : String := optionCompOf legs
  let netPremium := netPremiumOf legs
  let isCredit : Bool := decide (0 < netPremium)
  let direction : String := if isCredit then "Short" else "Long"
  let nti : String × String × Bool :=
    if numLegs = 1 then
      match legs with
      | leg :: _ =>
        (match leg.action with
          | Action.Buy => ("Long " ++ leg.type.str, "Single Leg", false)
          | Action.Sell => ("Naked " ++ leg.type.str, "Single Leg", false))
      | [] => ("Custom Strategy", "Custom", false)
    else if numLegs = 2 then
      if optionType ≠ "Mixed" then
        let name0 := optionType ++ " Vertical Spread"
        if (validStrikes legs).dedup.length = 2 then
          match sortLegsByStrike legs with
          | leg1 :: leg2 :: _ =>
            if optionType = "Calls" then
              if leg1.action = Action.Buy ∧ leg2.action = Action.Sell then
                ("Bull Call Spread", "Vertical Spread", false)
              else if leg1.action = Action.Sell ∧ leg2.action = Action.Buy then
                ("Bear Call Spread", "Vertical Spread", false)
              else (name0, "Vertical Spread", false)
            else if optionType = "Puts" then
              if leg1.action = Action.Buy ∧ leg2.action = Action.Sell then
                ("Bull Put Spread", "Vertical Spread", false)
              else if leg1.action = Action.Sell ∧ leg2.action = Action.Buy then
                ("Bear Put Spread", "Vertical Spread", false)
              else (name0, "Vertical Spread", false)
            else (name0, "Vertical Spread", false)
          | _ => (name0, "Vertical Spread", false)
        else (name0, "Vertical Spread", false)
      else
        if (validStrikes legs).dedup.length = 1 then
          ("Straddle", "Combination", false)
        else if (validStrikes legs).dedup.length = 2 then
          ("Strangle", "Combination", false)
        else ("Custom Strategy", "Custom", false)
    else if numLegs = 4 then
      if optionType = "Mixed" ∧ uniqueStrikes.length = 4 then
        match sortLegsByStrike legs with
        | [l0, l1, l2, l3] =>
          if (l0.action = Action.Buy ∧ l3.action = Action.Buy) ∧
              (l1.action = Action.Sell ∧ l2.action = Action.Sell) then
            ("Reverse Iron Condor", "Condor", true)
          else ("Iron Condor", "Condor", false)
        | _ => ("Custom Strategy", "Custom", false)
      else if optionType ≠ "Mixed" ∧ uniqueStrikes.length = 3 then
        match uniqueStrikes with
        | [u0, u1, u2] =>
          if (legs.filter (fun l => jsEq (strikeRaw l) u1)).length = 2 then
            let outerLegs := legs.filter (fun l =>
              jsEq (strikeRaw l) u0 ∨ jsEq (strikeRaw l) u2)
            if outerLegs.all (fun l => l.action = Action.Buy) then
              ("Long " ++ optionType ++ " Butterfly", "Butterfly", false)
            else if outerLegs.all (fun l => l.action = Action.Sell) then
              ("Short " ++ optionType ++ " Butterfly", "Butterfly", false)
            else ("Custom Strategy", "Butterfly", false)
          else ("Custom Strategy", "Custom", false)
        | _ => ("Custom Strategy", "Custom", false)
      else if optionType ≠ "Mixed" ∧ uniqueStrikes.length = 4 then
        match sortLegsByStrike legs with
        | [l0, l1, l2, l3] =>
          if (l0.action = Action.Buy ∧ l3.action = Action.Buy) ∧
              (l1.action = Action.Sell ∧ l2.action = Action.Sell) then
            ("Reverse " ++ optionType ++ " Condor", "Condor", true)
          else (optionType ++ " Condor", "Condor", false)
        | _ => ("Custom Strategy", "Custom", false)
      else ("Custom Strategy", "Custom", false)
    else ("Custom Strategy", "Custom", false)
  { name := nti.1
    type := nti.2.1
    direction := direction
    isCredit := isCredit
    isReverse := nti.2.2
    optionType := optionType }

/-- The caller-visible contents of the `legs` array after `detectStrategy`
returns.  The two-leg vertical-spread branch calls `legs.sort(...)` on the
caller's array in place (line 761); the four-leg branches sort a copy
(`[...legs].sort(...)`), and no other statement writes to the array, so any
other shape leaves it untouched. -/
def detectStrategyFinalLegs (legs : List Leg) : List Leg :=
  if legs.length = 2 ∧ optionCompOf legs ≠ "Mixed" ∧
      (validStrikes legs).dedup.length = 2 then
    sortLegsByStrike legs
  else legs

/-- `parseFloat(q.toFixed(2))`: ECMAScript `toFixed(2)` picks the integer
`n` minimising `|n / 100 − q|`, the larger `n` on ties, i.e.
`⌊100q + 1/2⌋ / 100` (written with the executable `Rat.floor`). -/
def round2 (q : ℚ) : ℚ := ((q * 100 + 1 / 2).floor : ℚ) / 100

/-- `legs.map(l => parseFloat(l.strike) || 0).filter(s => s > 0)`. -/
def posStrikes (legs : List Leg) : List ℚ :=
  (legs.map strikeNum).filter (fun s => 0 < s)

/-- `Math.min(...l)` with a default for the empty spread. -/
def listMinD : List ℚ → ℚ → ℚ
  | [], d => d
  | x :: xs, _ => xs.foldl min x

/-- `Math.max(...l)` with a default for the empty spread. -/
def listMaxD : List ℚ → ℚ → ℚ
  | [], d => d
  | x :: xs, _ => xs.foldl max x

def minStrikeOf (legs : List Leg) : ℚ := listMinD (posStrikes legs) 10

def maxStrikeOf (legs : List Leg) : ℚ := listMaxD (posStrikes legs) 100

/-- `Math.max(0, minStrike * 0.5)`. -/
def priceRangeStart (legs : List Leg) : ℚ := max 0 (minStrikeOf legs * (1 / 2))

/-- `maxStrike * 1.5`. -/
def priceRangeEnd (legs : List Leg) : ℚ := maxStrikeOf legs * (3 / 2)

/-- `(priceRangeEnd - priceRangeStart) / 500`. -/
def priceStep (legs : List Leg) : ℚ :=
  (priceRangeEnd legs - priceRangeStart legs) / 500

def samplePrice (legs : List Leg) (i : ℕ) : ℚ :=
  priceRangeStart legs + i * priceStep legs

/-- The simulation loop
`for (price = start; price <= end; price += step)` (lines 866–875), in
exact arithmetic.  Because the positive-strike filter guarantees
`0 < minStrike ≤ maxStrike` (fallback 10/100), we get
`start = max 0 (minStrike/2) < 1.5·maxStrike = end`, so `step > 0`; and
`end − start = 500·step` exactly, so the loop visits precisely the 501
prices `start + i·step` for `i = 0, …, 500`. -/
def pnlCurve (legs : List Leg) : List (ℚ × ℚ) :=
  (List.range 501).map fun i =>
    (samplePrice legs i, calculateStrategyPayoff legs (samplePrice legs i))

/-- `maxProfit` accumulator: the source starts from `-Infinity` and keeps
the larger value, which on the (always nonempty) 501-point curve is the
fold of `max` from the first sample; the default is never used. -/
def sampledMax (legs : List Leg) : ℚ := listMaxD ((pnlCurve legs).map Prod.snd) 0

/-- `maxLoss` accumulator, dually from `+Infinity`. -/
def sampledMin (legs : List Leg) : ℚ := listMinD ((pnlCurve legs).map Prod.snd) 0

/-- Breakeven extraction (lines 877–890): for each consecutive sample pair
with a sign change (zero allowed on either side), linearly interpolate the
crossing price and keep it if nonnegative. -/
def crossingPoints (curve : List (ℚ × ℚ)) : List ℚ :=
  (curve.zip curve.tail).filterMap fun p =>
    if (p.1.2 ≤ 0 ∧ 0 < p.2.2) ∨ (0 ≤ p.1.2 ∧ p.2.2 < 0) then
      let bp := p.1.1 - p.1.2 * (p.2.1 - p.1.1) / (p.2.2 - p.1.2)
      if 0 ≤ bp then some bp else none
    else none

/-- `[...new Set(l)].sort((a, b) => a - b)`: both the JS pipeline and
`dedup` + stable ascending sort return the strictly ascending enumeration
of the distinct values of `l`, hence the same list. -/
def sortedDedup (l : List ℚ) : List ℚ :=
  List.insertionSort (fun a b : ℚ => a ≤ b) l.dedup

/-- `uniqueBreakevens` (line 893): round to 2 decimals, dedupe, sort. -/
def breakevensOf (legs : List Leg) : List ℚ :=
  sortedDedup ((crossingPoints (pnlCurve legs)).map round2)

/-- `'Unlimited'` mixed with numbers, as an explicit sum type. -/
inductive MetricVal where
  | unbounded
  | val (q : ℚ)
deriving DecidableEq

/-- Output rounding `maxProfit === 'Unlimited' ? maxProfit :
parseFloat(maxProfit.toFixed(2))`. -/
def roundMV : MetricVal → MetricVal
  | MetricVal.unbounded => MetricVal.unbounded
  | MetricVal.val q => MetricVal.val (round2 q)

structure StrategyMetrics where
  netPremium : ℚ
  maxProfit : MetricVal
  maxLoss : MetricVal
  breakevens : List ℚ
  probProfit : String
  roi : ℚ
  strategyName : String
  strategyType : String
  direction : String
  isCredit : Bool
  isReverse : Bool
  optionType : String
deriving DecidableEq

/-- `calculateStrategyMetrics(legs, assetPrice, marginRequired)` from
`strategyCalculations.js` (final revision, lines 842–938).  `assetPrice` is
accepted and unused, exactly as in the source; `none` models an absent or
unparsable (`NaN`, hence falsy) argument.  The four single-leg override
cases are exhaustive over `Action × OptionType`, so the trailing sampled
pair is only reached for leg counts other than one. -/
def calculateStrategyMetrics (legs : List Leg)
    (assetPrice marginRequired : Option ℚ) : StrategyMetrics :=
  let netPremium := netPremiumOf legs
  let sMax := sampledMax legs
  let sMin := sampledMin legs
  let pl : MetricVal × MetricVal :=
    match legs with
    | [leg] =>
      if leg.action = Action.Buy ∧ leg.type = OptionType.Call then
        (MetricVal.unbounded, MetricVal.val sMin)
      else if leg.action = Action.Sell ∧ leg.type = OptionType.Call then
        (MetricVal.val sMax, MetricVal.unbounded)
      else if leg.action = Action.Buy ∧ leg.type = OptionType.Put then
        (MetricVal.val (max 0 (strikeNum leg - premiumNum leg) * (contractsNum leg : ℚ)),
          MetricVal.val sMin)
      else if leg.action = Action.Sell ∧ leg.type = OptionType.Put then
        (MetricVal.val sMax,
          MetricVal.val (max 0 (strikeNum leg - premiumNum leg) * (contractsNum leg : ℚ)))
      else (MetricVal.val sMax, MetricVal.val sMin)
    | _ => (MetricVal.val sMax, MetricVal.val sMin)
  let roi : ℚ :=
    match marginRequired with
    | some m => if m ≠ 0 then netPremium / m * 100 else 0
    | none => 0
  let d := detectStrategy legs
  { netPremium := round2 netPremium
    maxProfit := roundMV pl.1
    maxLoss := roundMV pl.2
    breakevens := breakevensOf legs
    probProfit := "N/A"
    roi := round2 roi
    strategyName := d.name
    strategyType := d.type
    direction := d.direction
    isCredit := d.isCredit
    isReverse := d.isReverse
    optionType := d.optionType }

/-- Concrete leg constructors for witnesses and counterexamples. -/
def buyCall (k p : ℚ) : Leg := ⟨Action.Buy, OptionType.Call, some k, some p, some 1⟩

def buyPut (k p : ℚ) : Leg := ⟨Action.Buy, OptionType.Put, some k, some p, some 1⟩

def sellCall (k p : ℚ) : Leg := ⟨Action.Sell, OptionType.Call, some k, some p, some 1⟩

def sellPut (k p : ℚ) : Leg := ⟨Action.Sell, OptionType.Put, some k, some p, some 1⟩

/-- A leg whose strike field does not parse. -/
def nanStrikeLeg : Leg := ⟨Action.Buy, OptionType.Call, none, some 5, some 1⟩

/-- A long straddle: Buy Call and Buy Put at the same strike `K` with
premiums `p1`, `p2` and `c` contracts each. -/
def straddleLegs (K p1 p2 : ℚ) (c : ℤ) : List Leg :=
  [⟨Action.Buy, OptionType.Call, some K, some p1, some c⟩,
    ⟨Action.Buy, OptionType.Put, some K, some p2, some c⟩]

end OptTracker

namespace OptTracker

/-- Auxiliary: `foldl (+) ` over a list starting from an accumulator. -/
theorem foldl_add_payoff (legs : List Leg) (p : ℚ) :
    ∀ a : ℚ, legs.foldl (fun acc leg => acc + calculateLegPayoff leg p) a
      = a + (legs.map (fun leg => calculateLegPayoff leg p)).sum := by
  induction legs with
  | nil => intro a; simp
  | cons leg rest ih =>
    intro a
    simp only [List.foldl_cons, List.map_cons, List.sum_cons]
    rw [ih]
    ring

/-- C1: the per-leg payoff is the claimed formula — Call intrinsic
`max 0 (price − strike)`, Put intrinsic `max 0 (strike − price)`, minus
premium, negated for `Sell`, times contracts — so at `price = strike` it
equals the premium P/L `±premium·contracts` (positive for `Sell`, negative
for `Buy`), and the strategy payoff is the sum of the per-leg payoffs. -/
theorem c1_leg_payoff :
    ∀ (leg : Leg) (price : ℚ),
      (calculateLegPayoff leg price =
        (match leg.action with
          | Action.Sell => -1
          | Action.Buy => 1) *
        ((match leg.type with
          | OptionType.Call => max 0 (price - strikeNum leg)
          | OptionType.Put => max 0 (strikeNum leg - price)) - premiumNum leg) *
        (contractsNum leg : ℚ)) ∧
      (calculateLegPayoff leg (strikeNum leg) =
        (match leg.action with
          | Action.Sell => 1
          | Action.Buy => -1) * premiumNum leg * (contractsNum leg : ℚ)) ∧
      (∀ legs : List Leg,
        calculateStrategyPayoff legs price =
          (legs.map (fun l => calculateLegPayoff l price)).sum) := by
  intro leg price
  refine ⟨?_, ?_, ?_⟩
  · cases leg with
    | mk a t s p c =>
      cases a <;> cases t <;> simp only [calculateLegPayoff] <;> ring
  · cases leg with
    | mk a t s p c =>
      cases a <;> cases t <;> simp [calculateLegPayoff]
  · intro legs
    unfold calculateStrategyPayoff
    rw [foldl_add_payoff]
    ring

/-- Helper: on a leg whose strike and premium both parse, the chart-curve
inline formula agrees with the Leg Model payoff. -/
theorem chartLegPayoff_eq_of_parsable (leg : Leg) (price : ℚ)
    (hs : leg.strike ≠ none) (hp : leg.premium ≠ none) :
    chartLegPayoff leg price = some (calculateLegPayoff leg price) := by
  cases leg with
  | mk a t st pr c =>
    cases st with
    | none => exact absurd rfl hs
    | some s =>
      cases pr with
      | none => exact absurd rfl hp
      | some p =>
        cases a <;> cases t <;>
          simp [chartLegPayoff, calculateLegPayoff, strikeNum, premiumNum]

/-- Helper: the chart fold stays `some` and tracks the Leg Model fold as
long as every leg parses. -/
theorem chartStrategyPayoff_fold (price : ℚ) :
    ∀ (legs : List Leg), (∀ leg ∈ legs, leg.strike ≠ none ∧ leg.premium ≠ none) →
      ∀ a : ℚ,
        legs.foldl (fun acc leg =>
          match acc, chartLegPayoff leg price with
          | some x, some y => some (x + y)
          | _, _ => none) (some a)
        = some (legs.foldl (fun acc leg => acc + calculateLegPayoff leg price) a) := by
  intro legs
  induction legs with
  | nil => intro _ a; rfl
  | cons leg rest ih =>
    intro h a
    have hleg := h leg (List.mem_cons_self leg rest)
    have hrest : ∀ l ∈ rest, l.strike ≠ none ∧ l.premium ≠ none :=
      fun l hl => h l (List.mem_cons_of_mem leg hl)
    simp only [List.foldl_cons,
      chartLegPayoff_eq_of_parsable leg price hleg.1 hleg.2]
    exact ih hrest (a + calculateLegPayoff leg price)

/-- Helper: a leg with an unparsable strike or premium contributes `NaN`
to the chart payoff. -/
theorem chartLegPayoff_none {leg : Leg} (price : ℚ)
    (h : leg.strike = none ∨ leg.premium = none) :
    chartLegPayoff leg price = none := by
  cases leg with
  | mk a t st pr c =>
    rcases h with h | h <;> simp only at h <;> subst h
    · rfl
    · cases st <;> rfl

/-- Helper: `NaN` is absorbing in the chart accumulation. -/
theorem chartFold_none (price : ℚ) :
    ∀ legs : List Leg,
      legs.foldl (fun acc leg =>
        match acc, chartLegPayoff leg price with
        | some x, some y => some (x + y)
        | _, _ => none) none = none := by
  intro legs
  induction legs with
  | nil => rfl
  | cons leg rest ih =>
    simp only [List.foldl_cons]
    exact ih

/-- Helper: one unparsable leg anywhere turns the whole chart payoff into
`NaN`, from any accumulator. -/
theorem chartFold_bad (price : ℚ) :
    ∀ legs : List Leg, (∃ leg ∈ legs, leg.strike = none ∨ leg.premium = none) →
      ∀ a : ℚ,
        legs.foldl (fun acc leg =>
          match acc, chartLegPayoff leg price with
          | some x, some y => some (x + y)
          | _, _ => none) (some a) = none := by
  intro legs
  induction legs with
  | nil =>
    rintro ⟨leg, hmem, _⟩
    simp at hmem
  | cons leg rest ih =>
    rintro ⟨bad, hmem, hbad⟩ a
    simp only [List.foldl_cons]
    rcases List.mem_cons.mp hmem with rfl | hmem2
    · rw [chartLegPayoff_none price hbad]
      exact chartFold_none price rest
    · cases hcl : chartLegPayoff leg price with
      | none => exact chartFold_none price rest
      | some v => exact ih ⟨bad, hmem2, hbad⟩ (a + v)

/-- C2 (amended): the chart-curve builder's inline per-point payoff equals
the Leg Model's `calculateStrategyPayoff` at every price whenever every
leg's strike and premium parse; whenever any leg's strike or premium is
unparsable, the chart computation yields `NaN` (`none`) — and therefore
differs from the Leg Model, which coerces the field to `0` and returns a
number. -/
theorem c2_chart_payoff_matches_model (legs : List Leg) (price : ℚ) :
    ((∀ leg ∈ legs, leg.strike ≠ none ∧ leg.premium ≠ none) →
      chartStrategyPayoff legs price = some (calculateStrategyPayoff legs price)) ∧
    ((∃ leg ∈ legs, leg.strike = none ∨ leg.premium = none) →
      chartStrategyPayoff legs price = none) := by
  constructor
  · intro h
    unfold chartStrategyPayoff calculateStrategyPayoff
    exact chartStrategyPayoff_fold price legs h 0
  · intro h
    unfold chartStrategyPayoff
    exact chartFold_bad price legs h 0

/-- C2 witness: a parsable two-leg strategy at a concrete price agrees
with the Leg Model, and a one-leg list with an unparsable strike yields
`NaN`. -/
theorem c2_chart_payoff_matches_model_witness :
    chartStrategyPayoff [buyCall 100 5, sellPut 90 3] 97
      = some (calculateStrategyPayoff [buyCall 100 5, sellPut 90 3] 97) ∧
    chartStrategyPayoff [nanStrikeLeg] 10 = none :=
  ⟨(c2_chart_payoff_matches_model [buyCall 100 5, sellPut 90 3] 97).1 (by
      intro leg hleg
      simp [buyCall, sellPut] at hleg
      rcases hleg with h | h <;> subst h <;> simp [buyCall, sellPut]),
    (c2_chart_payoff_matches_model [nanStrikeLeg] 10).2
      ⟨nanStrikeLeg, List.mem_cons_self nanStrikeLeg [], Or.inl rfl⟩⟩

/-- C2 counterexample: for a leg whose strike does not parse the chart
layer produces `NaN` (`none`) while the Leg Model coerces the strike to `0`
and returns a number, so the two payoff computations are not equal. -/
theorem c2_counterexample :
    chartStrategyPayoff [nanStrikeLeg] 10
      ≠ some (calculateStrategyPayoff [nanStrikeLeg] 10) := by
  simp [chartStrategyPayoff, chartLegPayoff, nanStrikeLeg]

/-- C9 (amended): `detectStrategy` can reorder the caller's array in place
(the two-leg vertical-spread branch sorts `legs` itself rather than a
copy), but it never modifies, adds or removes a leg record — the final
array is a permutation of the input — and every shape other than the
two-leg one leaves the array exactly as it was. -/
theorem c9_detect_mutation (legs : List Leg) :
    List.Perm (detectStrategyFinalLegs legs) legs ∧
    (legs.length ≠ 2 → detectStrategyFinalLegs legs = legs) := by
  have hperm : ∀ (c : Prop) (inst : Decidable c),
      (@ite _ c inst (sortLegsByStrike legs) legs).Perm legs := by
    intro c inst
    by_cases h : c
    · simpa only [if_pos h, sortLegsByStrike] using
        List.perm_insertionSort (fun a b => strikeRaw a ≤ strikeRaw b) legs
    · simpa only [if_neg h] using List.Perm.refl legs
  refine ⟨?_, ?_⟩
  · simp only [detectStrategyFinalLegs]
    exact hperm _ _
  · intro hlen
    simp only [detectStrategyFinalLegs]
    exact if_neg (fun hcond => hlen hcond.1)

/-- Helper: `round2` written with the mathematical floor, for `norm_num`. -/
theorem round2_eq (q : ℚ) : round2 q = ((⌊q * 100 + 1 / 2⌋ : ℤ) : ℚ) / 100 := by
  rw [round2, Rat.floor_def', Rat.floor_def]

/-- C10: a leg whose contracts field parses to `0` is treated as holding
one contract by the per-leg payoff, the net premium and the full metrics
computation, while a nonzero (in particular negative) parsed count is used
as-is. -/
theorem c10_zero_contracts (a : Action) (t : OptionType) (s p : Option ℚ)
    (price : ℚ) (ap mr : Option ℚ) :
    contractsNum ⟨a, t, s, p, some 0⟩ = 1 ∧
    calculateLegPayoff ⟨a, t, s, p, some 0⟩ price
      = calculateLegPayoff ⟨a, t, s, p, some 1⟩ price ∧
    netPremiumOf [⟨a, t, s, p, some 0⟩] = netPremiumOf [⟨a, t, s, p, some 1⟩] ∧
    calculateStrategyMetrics [⟨a, t, s, p, some 0⟩] ap mr
      = calculateStrategyMetrics [⟨a, t, s, p, some 1⟩] ap mr ∧
    (∀ n : ℤ, n ≠ 0 → contractsNum ⟨a, t, s, p, some n⟩ = n) := by
  refine ⟨by simp [contractsNum], ?_, ?_, ?_, ?_⟩
  · cases a <;> cases t <;>
      simp [calculateLegPayoff, contractsNum, strikeNum, premiumNum]
  · cases a <;> simp [netPremiumOf, contractsNum, premiumNum]
  · cases a <;> cases t <;>
      simp [calculateStrategyMetrics, netPremiumOf, sampledMax, sampledMin, pnlCurve,
        samplePrice, priceRangeStart, priceRangeEnd, priceStep, minStrikeOf, maxStrikeOf,
        posStrikes, breakevensOf, crossingPoints, calculateStrategyPayoff,
        calculateLegPayoff, detectStrategy, contractsNum, strikeNum, premiumNum,
        sortLegsByStrike, validStrikes, strikeRaw, optionCompOf, uniqueStrikesOf]
  · intro n hn
    simp [contractsNum, hn]

/-- C10 witness: a Buy Call with contracts `"0"` at strike 100, premium 5,
price 10 — the zero-contract leg behaves as one contract, and `-3`
contracts parse as `-3`. -/
theorem c10_zero_contracts_witness :
    calculateLegPayoff ⟨Action.Buy, OptionType.Call, some 100, some 5, some 0⟩ 10
      = calculateLegPayoff ⟨Action.Buy, OptionType.Call, some 100, some 5, some 1⟩ 10 ∧
    contractsNum ⟨Action.Buy, OptionType.Call, some 100, some 5, some (-3)⟩ = -3 :=
  ⟨(c10_zero_contracts Action.Buy OptionType.Call (some 100) (some 5) 10 none none).2.1,
    (c10_zero_contracts Action.Buy OptionType.Call (some 100) (some 5) 10 none none).2.2.2.2
      (-3) (by decide)⟩

/-- C6: for a single leg the metrics engine applies the exact overrides —
Buy Call: maxProfit Unbounded; Sell Call: maxLoss Unbounded; Buy Put:
maxProfit `max 0 (strike − premium)·contracts`; Sell Put: maxLoss the same
formula — while the other side of each pair remains the (rounded) sampled
extremum. -/
theorem c6_single_leg_overrides (leg : Leg) (ap mr : Option ℚ) :
    ((leg.action = Action.Buy ∧ leg.type = OptionType.Call) →
      (calculateStrategyMetrics [leg] ap mr).maxProfit = MetricVal.unbounded ∧
      (calculateStrategyMetrics [leg] ap mr).maxLoss
        = MetricVal.val (round2 (sampledMin [leg]))) ∧
    ((leg.action = Action.Sell ∧ leg.type = OptionType.Call) →
      (calculateStrategyMetrics [leg] ap mr).maxLoss = MetricVal.unbounded ∧
      (calculateStrategyMetrics [leg] ap mr).maxProfit
        = MetricVal.val (round2 (sampledMax [leg]))) ∧
    ((leg.action = Action.Buy ∧ leg.type = OptionType.Put) →
      (calculateStrategyMetrics [leg] ap mr).maxProfit
        = MetricVal.val (round2 (max 0 (strikeNum leg - premiumNum leg) * (contractsNum leg : ℚ))) ∧
      (calculateStrategyMetrics [leg] ap mr).maxLoss
        = MetricVal.val (round2 (sampledMin [leg]))) ∧
    ((leg.action = Action.Sell ∧ leg.type = OptionType.Put) →
      (calculateStrategyMetrics [leg] ap mr).maxLoss
        = MetricVal.val (round2 (max 0 (strikeNum leg - premiumNum leg) * (contractsNum leg : ℚ))) ∧
      (calculateStrategyMetrics [leg] ap mr).maxProfit
        = MetricVal.val (round2 (sampledMax [leg]))) := by
  refine ⟨?_, ?_, ?_, ?_⟩ <;> rintro ⟨h1, h2⟩ <;>
    simp [calculateStrategyMetrics, roundMV, h1, h2]

/-- C6 witness: a Buy Put at strike 100, premium 5, one contract has
maxProfit `max 0 (100−5)·1 = 95`. -/
theorem c6_single_leg_overrides_witness :
    (calculateStrategyMetrics [buyPut 100 5] none none).maxProfit = MetricVal.val 95 := by
  have h := ((c6_single_leg_overrides (buyPut 100 5) none none).2.2.1 ⟨rfl, rfl⟩).1
  rw [h]
  have hv : max (0 : ℚ) (strikeNum (buyPut 100 5) - premiumNum (buyPut 100 5))
      * (contractsNum (buyPut 100 5) : ℚ) = 95 := by
    simp [buyPut, strikeNum, premiumNum, contractsNum]
    norm_num
  rw [hv, round2_eq]
  norm_num

/-- C9 witness: a one-leg call is left untouched and is trivially a
permutation of itself. -/
theorem c9_detect_mutation_witness :
    List.Perm (detectStrategyFinalLegs [buyCall 100 5]) [buyCall 100 5] ∧
    detectStrategyFinalLegs [buyCall 100 5] = [buyCall 100 5] :=
  ⟨(c9_detect_mutation [buyCall 100 5]).1,
    (c9_detect_mutation [buyCall 100 5]).2 (by decide)⟩

/-- Helper: a filter misses length when some element fails the predicate. -/
theorem length_filter_ne {p : Leg → Bool} {l : List Leg} {x : Leg}
    (hx : x ∈ l) (hpx : ¬p x = true) : (l.filter p).length ≠ l.length := by
  intro h
  have hself : l.filter p = l := (List.filter_sublist l).eq_of_length h
  exact hpx (List.filter_eq_self.mp hself x hx)

/-- Helper: all-call legs have composition `"Calls"`. -/
theorem optionCompOf_all_call {legs : List Leg}
    (h : ∀ l ∈ legs, l.type = OptionType.Call) : optionCompOf legs = "Calls" := by
  have hf : legs.filter (fun leg => leg.type = OptionType.Call) = legs :=
    List.filter_eq_self.mpr (fun a ha => by simpa using h a ha)
  unfold optionCompOf
  rw [hf, if_pos rfl]

/-- Helper: nonempty all-put legs have composition `"Puts"`. -/
theorem optionCompOf_all_put {legs : List Leg} {x : Leg} (hx : x ∈ legs)
    (h : ∀ l ∈ legs, l.type = OptionType.Put) : optionCompOf legs = "Puts" := by
  have hf : legs.filter (fun leg => leg.type = OptionType.Put) = legs :=
    List.filter_eq_self.mpr (fun a ha => by simpa using h a ha)
  have hnc : (legs.filter (fun leg => leg.type = OptionType.Call)).length ≠ legs.length := by
    refine length_filter_ne hx ?_
    simp [h x hx]
  unfold optionCompOf
  rw [if_neg hnc, hf, if_pos rfl]

/-- Helper: legs holding both a call and a put have composition `"Mixed"`. -/
theorem optionCompOf_mixed {legs : List Leg}
    (hc : ∃ l ∈ legs, l.type = OptionType.Call)
    (hp : ∃ l ∈ legs, l.type = OptionType.Put) : optionCompOf legs = "Mixed" := by
  obtain ⟨lc, hlc, hlct⟩ := hc
  obtain ⟨lp, hlp, hlpt⟩ := hp
  have hnc : (legs.filter (fun leg => leg.type = OptionType.Call)).length ≠ legs.length :=
    length_filter_ne hlp (by simp [hlpt])
  have hnp : (legs.filter (fun leg => leg.type = OptionType.Put)).length ≠ legs.length :=
    length_filter_ne hlc (by simp [hlct])
  unfold optionCompOf
  rw [if_neg hnc, if_neg hnp]

/-- C4 (amended): the classifier is total and never errors, but malformed
strike sets do not uniformly fall to Custom: a two-leg same-option-type
input without exactly 2 distinct positive strikes keeps the generic
`"<Calls|Puts> Vertical Spread"` name with category `"Vertical Spread"`;
a two-leg mixed-type input without 1 or 2 distinct positive strikes, and
any leg count other than 1, 2 or 4, do fall through to
`"Custom Strategy"` / `"Custom"`. -/
theorem c4_malformed_strikes (legs : List Leg) :
    (∀ t : OptionType, legs.length = 2 → (∀ l ∈ legs, l.type = t) →
      (validStrikes legs).dedup.length ≠ 2 →
      (detectStrategy legs).name
        = (if t = OptionType.Call then "Calls" else "Puts") ++ " Vertical Spread" ∧
      (detectStrategy legs).type = "Vertical Spread") ∧
    (legs.length = 2 → (∃ l ∈ legs, l.type = OptionType.Call) →
      (∃ l ∈ legs, l.type = OptionType.Put) →
      (validStrikes legs).dedup.length ≠ 1 → (validStrikes legs).dedup.length ≠ 2 →
      (detectStrategy legs).name = "Custom Strategy" ∧
      (detectStrategy legs).type = "Custom") ∧
    (legs.length ≠ 1 → legs.length ≠ 2 → legs.length ≠ 4 →
      (detectStrategy legs).name = "Custom Strategy" ∧
      (detectStrategy legs).type = "Custom") := by
  refine ⟨?_, ?_, ?_⟩
  · intro t hlen hall h2
    have hcomp : optionCompOf legs = if t = OptionType.Call then "Calls" else "Puts" := by
      cases t with
      | Call => simpa using optionCompOf_all_call hall
      | Put =>
        have hx : ∃ x, x ∈ legs := by
          cases legs with
          | nil => simp at hlen
          | cons a l => exact ⟨a, List.mem_cons_self a l⟩
        obtain ⟨x, hx⟩ := hx
        simpa using optionCompOf_all_put hx hall
    cases t <;> simp [detectStrategy, hlen, hcomp, h2]
  · intro hlen hc hp h1 h2
    have hcomp : optionCompOf legs = "Mixed" := optionCompOf_mixed hc hp
    simp [detectStrategy, hlen, hcomp, h1, h2]
  · intro h1 h2 h4
    simp [detectStrategy, h1, h2, h4]

/-- C4 witness: two same-strike calls trip the first (generic vertical
spread) case of the amended statement. -/
theorem c4_malformed_strikes_witness :
    (detectStrategy [buyCall 100 5, buyCall 100 5]).name = "Calls Vertical Spread" ∧
    (detectStrategy [buyCall 100 5, buyCall 100 5]).type = "Vertical Spread" := by
  have h := (c4_malformed_strikes [buyCall 100 5, buyCall 100 5]).1 OptionType.Call
    rfl (by intro l hl; rcases List.mem_pair.mp hl with h | h <;> simp [h, buyCall])
    (by simp [validStrikes, buyCall, List.dedup, List.pwFilter])
  simpa using h

/-- C4 counterexample: a two-leg same-type input with duplicate strikes —
no §4.2 shape matches — classifies as `"Calls Vertical Spread"` with
category `"Vertical Spread"`, not as `"Custom Strategy"` / `"Custom"`. -/
theorem c4_counterexample :
    (detectStrategy [buyCall 100 5, buyCall 100 5]).name ≠ "Custom Strategy" ∧
    (detectStrategy [buyCall 100 5, buyCall 100 5]).type ≠ "Custom" := by
  constructor <;>
    simp [detectStrategy, validStrikes, netPremiumOf, buyCall, List.dedup,
      List.pwFilter, optionCompOf]

/-- Helper: when the parsed strikes are pairwise distinct, `uniqueStrikes`
keeps one entry per leg. -/
theorem uniqueStrikesOf_length {legs : List Leg}
    (hnd : (legs.map strikeRaw).Nodup) :
    (uniqueStrikesOf legs).length = legs.length := by
  unfold uniqueStrikesOf
  have hperm := List.perm_insertionSort
    (fun a b : WithBot ℚ => a ≤ b) (legs.map strikeRaw)
  have hnd2 := (hperm.nodup_iff).mpr hnd
  rw [List.dedup_eq_self.mpr hnd2, hperm.length_eq, List.length_map]

/-- C3: four legs of mixed option type with four distinct parsed strikes
are sorted ascending by strike; the result is `"Reverse Iron Condor"` with
`isReverse = true` exactly when the two outer legs are both Buy and the two
inner legs are both Sell, and `"Iron Condor"` with `isReverse = false` in
every other arrangement; the category is `"Condor"` in both cases. -/
theorem c3_iron_condor (legs : List Leg) (l0 l1 l2 l3 : Leg)
    (hlen : legs.length = 4)
    (hc : ∃ l ∈ legs, l.type = OptionType.Call)
    (hp : ∃ l ∈ legs, l.type = OptionType.Put)
    (hnd : (legs.map strikeRaw).Nodup)
    (hsort : sortLegsByStrike legs = [l0, l1, l2, l3]) :
    List.Perm [l0, l1, l2, l3] legs ∧
    List.Sorted (fun a b => strikeRaw a ≤ strikeRaw b) [l0, l1, l2, l3] ∧
    (detectStrategy legs).name
      = (if (l0.action = Action.Buy ∧ l3.action = Action.Buy) ∧
            (l1.action = Action.Sell ∧ l2.action = Action.Sell)
          then "Reverse Iron Condor" else "Iron Condor") ∧
    (detectStrategy legs).type = "Condor" ∧
    ((detectStrategy legs).isReverse = true ↔
      (l0.action = Action.Buy ∧ l3.action = Action.Buy) ∧
        (l1.action = Action.Sell ∧ l2.action = Action.Sell)) := by
  haveI : IsTotal Leg (fun a b => strikeRaw a ≤ strikeRaw b) :=
    ⟨fun a b => le_total (strikeRaw a) (strikeRaw b)⟩
  haveI : IsTrans Leg (fun a b => strikeRaw a ≤ strikeRaw b) :=
    ⟨fun _ _ _ hab hbc => le_trans hab hbc⟩
  have hperm : List.Perm [l0, l1, l2, l3] legs := by
    have h := List.perm_insertionSort (fun a b => strikeRaw a ≤ strikeRaw b) legs
    rwa [show List.insertionSort (fun a b => strikeRaw a ≤ strikeRaw b) legs
      = sortLegsByStrike legs from rfl, hsort] at h
  have hsorted : List.Sorted (fun a b => strikeRaw a ≤ strikeRaw b) [l0, l1, l2, l3] := by
    have h := List.sorted_insertionSort (fun a b => strikeRaw a ≤ strikeRaw b) legs
    rwa [show List.insertionSort (fun a b => strikeRaw a ≤ strikeRaw b) legs
      = sortLegsByStrike legs from rfl, hsort] at h
  have hmix : optionCompOf legs = "Mixed" := optionCompOf_mixed hc hp
  have hulen : (uniqueStrikesOf legs).length = 4 := by
    rw [uniqueStrikesOf_length hnd, hlen]
  refine ⟨hperm, hsorted, ?_⟩
  by_cases hcond : (l0.action = Action.Buy ∧ l3.action = Action.Buy) ∧
      (l1.action = Action.Sell ∧ l2.action = Action.Sell)
  · simp [detectStrategy, hlen, hmix, hulen, hsort, hcond]
  · simp [detectStrategy, hlen, hmix, hulen, hsort, hcond]

/-- C3 witness: the spec's literal table row
`[90 Buy Put, 95 Sell Put, 105 Sell Call, 110 Buy Call]` (outer Buy, inner
Sell) classifies as `"Reverse Iron Condor"`, `isReverse = true`, category
`"Condor"`. -/
theorem c3_iron_condor_witness :
    (detectStrategy [buyPut 90 1, sellPut 95 2, sellCall 105 2, buyCall 110 1]).name
      = "Reverse Iron Condor" ∧
    (detectStrategy [buyPut 90 1, sellPut 95 2, sellCall 105 2, buyCall 110 1]).isReverse
      = true ∧
    (detectStrategy [buyPut 90 1, sellPut 95 2, sellCall 105 2, buyCall 110 1]).type
      = "Condor" := by
  have h := c3_iron_condor
    [buyPut 90 1, sellPut 95 2, sellCall 105 2, buyCall 110 1]
    (buyPut 90 1) (sellPut 95 2) (sellCall 105 2) (buyCall 110 1)
    rfl
    ⟨sellCall 105 2, by simp [buyPut, sellPut, sellCall, buyCall], rfl⟩
    ⟨buyPut 90 1, by simp [buyPut], rfl⟩
    (by simp [buyPut, sellPut, sellCall, buyCall, strikeRaw, WithBot.coe_eq_coe])
    (by
      simp [sortLegsByStrike, List.insertionSort, List.orderedInsert,
        buyPut, sellPut, sellCall, buyCall, strikeRaw]
      decide)
  refine ⟨?_, ?_, ?_⟩
  · have := h.2.2.1
    rwa [if_pos ⟨⟨rfl, rfl⟩, ⟨rfl, rfl⟩⟩] at this
  · exact (h.2.2.2.2).mpr ⟨⟨rfl, rfl⟩, ⟨rfl, rfl⟩⟩
  · exact h.2.2.2.1

/-- Helper: a `max`-fold lands on any upper bound contained in the seed or
the list. -/
theorem foldl_max_eq_of (as : List ℚ) :
    ∀ a x : ℚ, (x = a ∨ x ∈ as) → a ≤ x → (∀ y ∈ as, y ≤ x) →
      as.foldl max a = x := by
  induction as with
  | nil =>
    intro a x hx ha _
    rcases hx with h | h
    · simpa [h] using le_antisymm ha (le_of_eq h.symm)
    · simp at h
  | cons b bs ih =>
    intro a x hx ha hub
    simp only [List.foldl_cons]
    have hb : b ≤ x := hub b (List.mem_cons_self b bs)
    refine ih (max a b) x ?_ (max_le ha hb) (fun y hy => hub y (List.mem_cons_of_mem b hy))
    rcases hx with h | h
    · left
      subst h
      exact (max_eq_left hb).symm
    · rcases List.mem_cons.mp h with h | h
      · left
        subst h
        exact (max_eq_right ha).symm
      · right
        exact h

/-- Helper: a `min`-fold lands on any lower bound contained in the seed or
the list. -/
theorem foldl_min_eq_of (as : List ℚ) :
    ∀ a x : ℚ, (x = a ∨ x ∈ as) → x ≤ a → (∀ y ∈ as, x ≤ y) →
      as.foldl min a = x := by
  induction as with
  | nil =>
    intro a x hx ha _
    rcases hx with h | h
    · simpa [h] using le_antisymm (le_of_eq h.symm) ha
    · simp at h
  | cons b bs ih =>
    intro a x hx ha hlb
    simp only [List.foldl_cons]
    have hb : x ≤ b := hlb b (List.mem_cons_self b bs)
    refine ih (min a b) x ?_ (le_min ha hb) (fun y hy => hlb y (List.mem_cons_of_mem b hy))
    rcases hx with h | h
    · left
      subst h
      exact (min_eq_left hb).symm
    · rcases List.mem_cons.mp h with h | h
      · left
        subst h
        exact (min_eq_right ha).symm
      · right
        exact h

/-- Helper: the sampled maximum is the maximal element of the curve. -/
theorem listMaxD_eq {l : List ℚ} {x : ℚ} (hx : x ∈ l) (hub : ∀ y ∈ l, y ≤ x)
    (d : ℚ) : listMaxD l d = x := by
  cases l with
  | nil => simp at hx
  | cons a as =>
    simp only [listMaxD]
    refine foldl_max_eq_of as a x ?_ ?_ ?_
    · rcases List.mem_cons.mp hx with h | h
      · exact Or.inl h
      · exact Or.inr h
    · exact hub a (List.mem_cons_self a as)
    · exact fun y hy => hub y (List.mem_cons_of_mem a hy)

/-- Helper: the sampled minimum is the minimal element of the curve. -/
theorem listMinD_eq {l : List ℚ} {x : ℚ} (hx : x ∈ l) (hlb : ∀ y ∈ l, x ≤ y)
    (d : ℚ) : listMinD l d = x := by
  cases l with
  | nil => simp at hx
  | cons a as =>
    simp only [listMinD]
    refine foldl_min_eq_of as a x ?_ ?_ ?_
    · rcases List.mem_cons.mp hx with h | h
      · exact Or.inl h
      · exact Or.inr h
    · exact hlb a (List.mem_cons_self a as)
    · exact fun y hy => hlb y (List.mem_cons_of_mem a hy)

/-- Helper: on zero legs every sampled payoff is `0`. -/
theorem pnlCurve_nil_snd : (pnlCurve []).map Prod.snd = (List.range 501).map (fun _ => 0) := by
  rw [pnlCurve, List.map_map]
  apply List.map_congr_left
  intro a ha
  rfl

set_option maxRecDepth 4096 in
/-- C8 (amended): on an empty leg list `calculateStrategyMetrics` never
errors and returns the zero-valued metrics — netPremium 0, maxProfit 0,
maxLoss 0, no breakevens, roi 0 — but its classification is the fall-through
`"Custom Strategy"` / `"Custom"` (with composition `"Calls"`, the
all-vacuous default), not `"N/A"`: the final revision of the source has no
zero-leg guard, and the `"N/A"` default exists only in the earlier guarded
revision. -/
theorem c8_empty_legs (ap mr : Option ℚ) :
    calculateStrategyMetrics [] ap mr =
      { netPremium := 0
        maxProfit := MetricVal.val 0
        maxLoss := MetricVal.val 0
        breakevens := []
        probProfit := "N/A"
        roi := 0
        strategyName := "Custom Strategy"
        strategyType := "Custom"
        direction := "Long"
        isCredit := false
        isReverse := false
        optionType := "Calls" } := by
  have hzero : ∀ y ∈ (pnlCurve []).map Prod.snd, y = 0 := by
    rw [pnlCurve_nil_snd]
    intro y hy
    rcases List.mem_map.mp hy with ⟨i, _, rfl⟩
    rfl
  have hmem : (0 : ℚ) ∈ (pnlCurve []).map Prod.snd := by
    rw [pnlCurve_nil_snd]
    exact List.mem_map.mpr ⟨0, by simp, rfl⟩
  have hmax : sampledMax [] = 0 :=
    listMaxD_eq hmem (fun y hy => le_of_eq (hzero y hy)) 0
  have hmin : sampledMin [] = 0 :=
    listMinD_eq hmem (fun y hy => ge_of_eq (hzero y hy)) 0
  have hcross : crossingPoints (pnlCurve []) = [] := by
    rw [crossingPoints, List.filterMap_eq_nil_iff]
    intro p hp
    have h1 : p.1 ∈ pnlCurve [] := (List.mem_zip hp).1
    have h2 : p.2 ∈ (pnlCurve []).tail :=  (List.mem_zip hp).2
    have h1s : p.1.2 = 0 := by
      have := hzero p.1.2 (List.mem_map.mpr ⟨p.1, h1, rfl⟩)
      exact this
    have h2s : p.2.2 = 0 := by
      refine hzero p.2.2 (List.mem_map.mpr ⟨p.2, ?_, rfl⟩)
      exact List.mem_of_mem_tail h2
    rw [if_neg]
    rw [h1s, h2s]
    simp
  have hround0 : round2 0 = 0 := by
    rw [round2_eq]
    norm_num
  have hroi : (match mr with
      | some m => if m ≠ 0 then netPremiumOf [] / m * 100 else 0
      | none => (0 : ℚ)) = 0 := by
    cases mr with
    | none => rfl
    | some m =>
      by_cases hm : m = 0 <;> simp [netPremiumOf, hm]
  have hdetect : detectStrategy [] =
      { name := "Custom Strategy", type := "Custom", direction := "Long",
        isCredit := false, isReverse := false, optionType := "Calls" } := by
    simp [detectStrategy, optionCompOf, netPremiumOf, uniqueStrikesOf]
  simp only [calculateStrategyMetrics, hmax, hmin, roundMV, breakevensOf, hcross,
    sortedDedup, hround0, hroi, hdetect, List.map_nil, List.dedup_nil,
    List.insertionSort]
  have hnp : round2 (netPremiumOf []) = 0 := by
    show round2 0 = 0
    exact hround0
  rw [hnp]

/-- C8 counterexample: the classification attached to the zero-leg result
is `"Custom Strategy"`, not the claimed `"N/A"`. -/
theorem c8_counterexample :
    (calculateStrategyMetrics [] none none).strategyName = "Custom Strategy" ∧
    (calculateStrategyMetrics [] none none).strategyName ≠ "N/A" := by
  constructor <;>
    simp [calculateStrategyMetrics, detectStrategy, optionCompOf, netPremiumOf,
      uniqueStrikesOf]

/-- Helper: `sortedDedup` keeps exactly the values of its input. -/
theorem sortedDedup_mem {l : List ℚ} {b : ℚ} : b ∈ sortedDedup l ↔ b ∈ l := by
  unfold sortedDedup
  rw [(List.perm_insertionSort (fun a b : ℚ => a ≤ b) l.dedup).mem_iff]
  exact List.mem_dedup

/-- Helper: `sortedDedup` output is strictly ascending. -/
theorem sortedDedup_sorted (l : List ℚ) : List.Sorted (· < ·) (sortedDedup l) := by
  unfold sortedDedup
  have hperm := List.perm_insertionSort (fun a b : ℚ => a ≤ b) l.dedup
  have hnd : (List.insertionSort (fun a b : ℚ => a ≤ b) l.dedup).Nodup :=
    hperm.nodup_iff.mpr (List.nodup_dedup l)
  have hsorted : List.Sorted (fun a b : ℚ => a ≤ b)
      (List.insertionSort (fun a b : ℚ => a ≤ b) l.dedup) :=
    List.sorted_insertionSort (fun a b : ℚ => a ≤ b) l.dedup
  exact (hsorted.and hnd).imp (fun h => lt_of_le_of_ne h.1 h.2)

/-- Helper: every extracted crossing passed the `>= 0` filter. -/
theorem crossingPoints_nonneg {curve : List (ℚ × ℚ)} {c : ℚ}
    (hc : c ∈ crossingPoints curve) : 0 ≤ c := by
  unfold crossingPoints at hc
  rcases List.mem_filterMap.mp hc with ⟨p, _, hp⟩
  by_cases hcond : (p.1.2 ≤ 0 ∧ 0 < p.2.2) ∨ (0 ≤ p.1.2 ∧ p.2.2 < 0)
  · rw [if_pos hcond] at hp
    by_cases hbp : 0 ≤ p.1.1 - p.1.2 * (p.2.1 - p.1.1) / (p.2.2 - p.1.2)
    · rw [if_pos hbp] at hp
      cases hp
      exact hbp
    · rw [if_neg hbp] at hp
      cases hp
  · rw [if_neg hcond] at hp
    cases hp

/-- Helper: rounding to two decimals preserves nonnegativity. -/
theorem round2_nonneg {q : ℚ} (hq : 0 ≤ q) : 0 ≤ round2 q := by
  rw [round2_eq]
  have h1 : (0 : ℤ) ≤ ⌊q * 100 + 1 / 2⌋ := by
    apply Int.floor_nonneg.mpr
    positivity
  positivity

set_option maxRecDepth 4096 in
/-- C7: for every leg list (and any optional arguments) the breakevens in
the metrics result are strictly ascending (hence duplicate-free after the
2-decimal rounding), contain no negative price, and each one is the
2-decimal rounding of a crossing obtained by linear interpolation of a
sign change (zero allowed on either side) between consecutive payoff
samples. -/
theorem c7_breakevens_invariant (legs : List Leg) (ap mr : Option ℚ) :
    List.Sorted (· < ·) (calculateStrategyMetrics legs ap mr).breakevens ∧
    ∀ b ∈ (calculateStrategyMetrics legs ap mr).breakevens,
      0 ≤ b ∧ ∃ c ∈ crossingPoints (pnlCurve legs), b = round2 c := by
  have hb : (calculateStrategyMetrics legs ap mr).breakevens
      = sortedDedup ((crossingPoints (pnlCurve legs)).map round2) := rfl
  rw [hb]
  refine ⟨sortedDedup_sorted _, ?_⟩
  intro b hbmem
  rcases List.mem_map.mp (sortedDedup_mem.mp hbmem) with ⟨c, hcmem, hceq⟩
  exact ⟨hceq ▸ round2_nonneg (crossingPoints_nonneg hcmem), c, hcmem, hceq.symm⟩

/-- Helper: the straddle's sampling grid starts at `K/2` with step
`K/500`. -/
theorem straddle_price {K p1 p2 : ℚ} {c : ℤ} (hK : 0 < K) (i : ℕ) :
    samplePrice (straddleLegs K p1 p2 c) i = K / 2 + i * (K / 500) := by
  have hpos : posStrikes (straddleLegs K p1 p2 c) = [K, K] := by
    simp [posStrikes, straddleLegs, strikeNum, hK]
  have hmin : minStrikeOf (straddleLegs K p1 p2 c) = K := by
    rw [minStrikeOf, hpos]
    simp [listMinD]
  have hmax : maxStrikeOf (straddleLegs K p1 p2 c) = K := by
    rw [maxStrikeOf, hpos]
    simp [listMaxD]
  have hstart : priceRangeStart (straddleLegs K p1 p2 c) = K / 2 := by
    rw [priceRangeStart, hmin, max_eq_right (by positivity)]
    ring
  have hend : priceRangeEnd (straddleLegs K p1 p2 c) = K * (3 / 2) := by
    rw [priceRangeEnd, hmax]
  rw [samplePrice, priceStep, hstart, hend]
  ring

/-- Helper: closed form of the straddle payoff. -/
theorem straddle_payoff {K p1 p2 : ℚ} {c : ℤ} (hc : c ≠ 0) (x : ℚ) :
    calculateStrategyPayoff (straddleLegs K p1 p2 c) x
      = ((max 0 (x - K) - p1) + (max 0 (K - x) - p2)) * c := by
  simp [calculateStrategyPayoff, straddleLegs, calculateLegPayoff, strikeNum,
    premiumNum, contractsNum, hc]
  ring

/-- Helper: on the lower half of the grid the straddle payoff is the
descending line `((250 − i)·(K/500) − (p1 + p2))·c`. -/
theorem straddle_f_le {K p1 p2 : ℚ} {c : ℤ} (hK : 0 < K) (hc : c ≠ 0)
    {i : ℕ} (hi : i ≤ 250) :
    calculateStrategyPayoff (straddleLegs K p1 p2 c)
        (samplePrice (straddleLegs K p1 p2 c) i)
      = (((250 : ℚ) - i) * (K / 500) - (p1 + p2)) * c := by
  rw [straddle_payoff hc, straddle_price hK]
  have hiq : (i : ℚ) ≤ 250 := by exact_mod_cast hi
  have hx : K / 2 + i * (K / 500) ≤ K := by
    have h1 : (i : ℚ) * (K / 500) ≤ 250 * (K / 500) :=
      mul_le_mul_of_nonneg_right hiq (by positivity)
    nlinarith
  rw [max_eq_left (by linarith), max_eq_right (by linarith)]
  ring

/-- Helper: on the upper half of the grid the straddle payoff is the
ascending line `((i − 250)·(K/500) − (p1 + p2))·c`. -/
theorem straddle_f_ge {K p1 p2 : ℚ} {c : ℤ} (hK : 0 < K) (hc : c ≠ 0)
    {i : ℕ} (hi : 250 ≤ i) :
    calculateStrategyPayoff (straddleLegs K p1 p2 c)
        (samplePrice (straddleLegs K p1 p2 c) i)
      = (((i : ℚ) - 250) * (K / 500) - (p1 + p2)) * c := by
  rw [straddle_payoff hc, straddle_price hK]
  have hiq : (250 : ℚ) ≤ i := by exact_mod_cast hi
  have hx : K ≤ K / 2 + i * (K / 500) := by
    have h1 : (250 : ℚ) * (K / 500) ≤ i * (K / 500) :=
      mul_le_mul_of_nonneg_right hiq (by positivity)
    nlinarith
  rw [max_eq_right (by linarith), max_eq_left (by linarith)]
  ring

/-- Helper: every sampled straddle payoff is the payoff at some grid index
`i ≤ 500`, and conversely. -/
theorem straddle_curve_snd {K p1 p2 : ℚ} {c : ℤ} {y : ℚ}
    (hy : y ∈ (pnlCurve (straddleLegs K p1 p2 c)).map Prod.snd) :
    ∃ i : ℕ, i ≤ 500 ∧
      y = calculateStrategyPayoff (straddleLegs K p1 p2 c)
        (samplePrice (straddleLegs K p1 p2 c) i) := by
  rcases List.mem_map.mp hy with ⟨pt, hpt, hsnd⟩
  rcases List.mem_map.mp hpt with ⟨i, hi, rfl⟩
  exact ⟨i, Nat.lt_succ_iff.mp (List.mem_range.mp hi), hsnd.symm⟩

/-- Helper: the straddle's sampled maximum is attained at the range edge:
`(K/2 − (p1+p2))·c`. -/
theorem straddle_sampledMax {K p1 p2 : ℚ} {c : ℤ} (hK : 0 < K) (hc : 0 < c) :
    sampledMax (straddleLegs K p1 p2 c) = (K / 2 - (p1 + p2)) * c := by
  have hcq : (0 : ℚ) < (c : ℚ) := by exact_mod_cast hc
  have hc0 : c ≠ 0 := hc.ne'
  have h0 : calculateStrategyPayoff (straddleLegs K p1 p2 c)
      (samplePrice (straddleLegs K p1 p2 c) 0) = (K / 2 - (p1 + p2)) * c := by
    rw [straddle_f_le hK hc0 (by norm_num)]
    push_cast
    ring
  apply listMaxD_eq
  · refine List.mem_map.mpr ⟨(samplePrice (straddleLegs K p1 p2 c) 0,
      calculateStrategyPayoff (straddleLegs K p1 p2 c)
        (samplePrice (straddleLegs K p1 p2 c) 0)), ?_, h0⟩
    exact List.mem_map.mpr ⟨0, List.mem_range.mpr (by norm_num), rfl⟩
  · intro y hy
    rcases straddle_curve_snd hy with ⟨i, hi500, rfl⟩
    by_cases hile : i ≤ 250
    · rw [straddle_f_le hK hc0 hile]
      have hiq : (0 : ℚ) ≤ i := by positivity
      have hstep : (0 : ℚ) < K / 500 := by positivity
      have : ((250 : ℚ) - i) * (K / 500) ≤ 250 * (K / 500) :=
        mul_le_mul_of_nonneg_right (by linarith) hstep.le
      have h250 : (250 : ℚ) * (K / 500) = K / 2 := by ring
      apply mul_le_mul_of_nonneg_right _ hcq.le
      linarith
    · have hige : 250 ≤ i := le_of_not_le hile
      rw [straddle_f_ge hK hc0 hige]
      have hiq : (i : ℚ) ≤ 500 := by exact_mod_cast hi500
      have hstep : (0 : ℚ) < K / 500 := by positivity
      have : ((i : ℚ) - 250) * (K / 500) ≤ 250 * (K / 500) :=
        mul_le_mul_of_nonneg_right (by linarith) hstep.le
      have h250 : (250 : ℚ) * (K / 500) = K / 2 := by ring
      apply mul_le_mul_of_nonneg_right _ hcq.le
      linarith

/-- Helper: the straddle's sampled minimum is attained exactly at the
strike (grid index 250): `−(p1+p2)·c`. -/
theorem straddle_sampledMin {K p1 p2 : ℚ} {c : ℤ} (hK : 0 < K) (hc : 0 < c) :
    sampledMin (straddleLegs K p1 p2 c) = -((p1 + p2) * c) := by
  have hcq : (0 : ℚ) < (c : ℚ) := by exact_mod_cast hc
  have hc0 : c ≠ 0 := hc.ne'
  have h250 : calculateStrategyPayoff (straddleLegs K p1 p2 c)
      (samplePrice (straddleLegs K p1 p2 c) 250) = -((p1 + p2) * c) := by
    rw [straddle_f_le hK hc0 (by norm_num)]
    push_cast
    ring
  apply listMinD_eq
  · refine List.mem_map.mpr ⟨(samplePrice (straddleLegs K p1 p2 c) 250,
      calculateStrategyPayoff (straddleLegs K p1 p2 c)
        (samplePrice (straddleLegs K p1 p2 c) 250)), ?_, h250⟩
    exact List.mem_map.mpr ⟨250, List.mem_range.mpr (by norm_num), rfl⟩
  · intro y hy
    rcases straddle_curve_snd hy with ⟨i, hi500, rfl⟩
    have hstep : (0 : ℚ) < K / 500 := by positivity
    by_cases hile : i ≤ 250
    · rw [straddle_f_le hK hc0 hile]
      have hiq : (i : ℚ) ≤ 250 := by exact_mod_cast hile
      have h2 : (0 : ℚ) ≤ ((250 : ℚ) - i) * (K / 500) :=
        mul_nonneg (by linarith) hstep.le
      nlinarith [mul_nonneg h2 hcq.le]
    · have hige : 250 ≤ i := le_of_not_le hile
      rw [straddle_f_ge hK hc0 hige]
      have hiq : (250 : ℚ) ≤ i := by exact_mod_cast hige
      have h2 : (0 : ℚ) ≤ ((i : ℚ) - 250) * (K / 500) :=
        mul_nonneg (by linarith) hstep.le
      nlinarith [mul_nonneg h2 hcq.le]

/-- Helper: zipping a `range'` block with its own tail enumerates the
consecutive index pairs. -/
theorem zip_range'_tail :
    ∀ (n a : ℕ), (List.range' a (n + 1)).zip (List.range' a (n + 1)).tail
      = (List.range' a n).map (fun i => (i, i + 1)) := by
  intro n
  induction n with
  | zero => intro a; rfl
  | succ k ih =>
    intro a
    have h1 : List.range' a (k + 2) = a :: List.range' (a + 1) (k + 1) :=
      List.range'_succ a (k + 1) 1
    have h2 : List.range' (a + 1) (k + 1) = (a + 1) :: List.range' (a + 2) k :=
      List.range'_succ (a + 1) k 1
    calc (List.range' a (k + 2)).zip (List.range' a (k + 2)).tail
        = (a :: List.range' (a + 1) (k + 1)).zip (List.range' (a + 1) (k + 1)) := by
          rw [h1]
          rfl
      _ = (a, a + 1) :: (List.range' (a + 1) (k + 1)).zip (List.range' (a + 2) k) := by
          rw [h2]
          rfl
      _ = (a, a + 1) ::
            (List.range' (a + 1) (k + 1)).zip (List.range' (a + 1) (k + 1)).tail := by
          rw [h2]
          rfl
      _ = (a, a + 1) :: (List.range' (a + 1) k).map (fun i => (i, i + 1)) := by
          rw [ih (a + 1)]
      _ = (List.range' a (k + 1)).map (fun i => (i, i + 1)) := by
          rw [List.range'_succ a k 1, List.map_cons]

/-- Helper: same for `range`. -/
theorem zip_range_tail (n : ℕ) :
    (List.range (n + 1)).zip (List.range (n + 1)).tail
      = (List.range n).map (fun i => (i, i + 1)) := by
  rw [List.range_eq_range', List.range_eq_range', zip_range'_tail n 0]

/-- Helper: a `filterMap` over `range` with no hits is empty. -/
theorem filterMap_range_none {h : ℕ → Option ℚ} :
    ∀ n, (∀ i < n, h i = none) → (List.range n).filterMap h = [] := by
  intro n
  induction n with
  | zero => intro _; rfl
  | succ m ih =>
    intro hall
    rw [List.range_succ, List.filterMap_append,
      ih (fun i hi => hall i (Nat.lt_succ_of_lt hi))]
    simp [hall m (Nat.lt_succ_self m)]

/-- Helper: a `filterMap` over `range` with exactly one hit is a
singleton. -/
theorem filterMap_range_one {h : ℕ → Option ℚ} {x : ℚ} {a : ℕ} :
    ∀ n, a < n → h a = some x → (∀ i < n, i ≠ a → h i = none) →
      (List.range n).filterMap h = [x] := by
  intro n
  induction n with
  | zero => intro hlt; omega
  | succ m ih =>
    intro hlt ha hnone
    rw [List.range_succ, List.filterMap_append]
    rcases Nat.lt_succ_iff_lt_or_eq.mp hlt with hlt2 | heq
    · rw [ih hlt2 ha (fun i hi hne => hnone i (Nat.lt_succ_of_lt hi) hne)]
      have hm : h m = none := hnone m (Nat.lt_succ_self m) (by omega)
      simp [hm]
    · subst heq
      rw [filterMap_range_none a (fun i hi => hnone i (Nat.lt_succ_of_lt hi) (by omega))]
      simp [ha]

/-- Helper: a `filterMap` over `range` with exactly two hits, in index
order, is the two-element list. -/
theorem filterMap_range_two {h : ℕ → Option ℚ} {x y : ℚ} {a b : ℕ} :
    ∀ n, a < b → b < n → h a = some x → h b = some y →
      (∀ i < n, i ≠ a → i ≠ b → h i = none) →
      (List.range n).filterMap h = [x, y] := by
  intro n
  induction n with
  | zero => intro _ hlt; omega
  | succ m ih =>
    intro hab hlt ha hb hnone
    rw [List.range_succ, List.filterMap_append]
    rcases Nat.lt_succ_iff_lt_or_eq.mp hlt with hlt2 | heq
    · rw [ih hab hlt2 ha hb (fun i hi h1 h2 => hnone i (Nat.lt_succ_of_lt hi) h1 h2)]
      have hm : h m = none := hnone m (Nat.lt_succ_self m) (by omega) (by omega)
      simp [hm]
    · subst heq
      rw [filterMap_range_one b hab ha
        (fun i hi hne => hnone i (Nat.lt_succ_of_lt hi) hne (by omega))]
      simp [hb]

/-- Helper: breakeven extraction over the 501-point curve is the indexed
scan of the 500 consecutive sample pairs. -/
theorem crossingPoints_curve (legs : List Leg) :
    crossingPoints (pnlCurve legs) = (List.range 500).filterMap (fun i =>
      if (calculateStrategyPayoff legs (samplePrice legs i) ≤ 0 ∧
            0 < calculateStrategyPayoff legs (samplePrice legs (i + 1))) ∨
          (0 ≤ calculateStrategyPayoff legs (samplePrice legs i) ∧
            calculateStrategyPayoff legs (samplePrice legs (i + 1)) < 0) then
        if 0 ≤ samplePrice legs i - calculateStrategyPayoff legs (samplePrice legs i) *
            (samplePrice legs (i + 1) - samplePrice legs i) /
            (calculateStrategyPayoff legs (samplePrice legs (i + 1)) -
              calculateStrategyPayoff legs (samplePrice legs i)) then
          some (samplePrice legs i - calculateStrategyPayoff legs (samplePrice legs i) *
            (samplePrice legs (i + 1) - samplePrice legs i) /
            (calculateStrategyPayoff legs (samplePrice legs (i + 1)) -
              calculateStrategyPayoff legs (samplePrice legs i)))
        else none
      else none) := by
  unfold crossingPoints pnlCurve
  rw [show (501 : ℕ) = 500 + 1 from rfl]
  rw [← List.map_tail, List.zip_map, zip_range_tail 500, List.map_map,
    List.filterMap_map]
  rfl

/-- Helper: evaluating one step of the breakeven scan when a sign change
fires and the interpolated price is the nonnegative value `v`. -/
theorem crossFn_eval {x1 y1 x2 y2 v dx dy : ℚ}
    (hcond : (y1 ≤ 0 ∧ 0 < y2) ∨ (0 ≤ y1 ∧ y2 < 0))
    (hdx : x2 - x1 = dx) (hdy : y2 - y1 = dy)
    (hval : x1 - y1 * dx / dy = v) (hv : 0 ≤ v) :
    (if (y1 ≤ 0 ∧ 0 < y2) ∨ (0 ≤ y1 ∧ y2 < 0) then
      if 0 ≤ x1 - y1 * (x2 - x1) / (y2 - y1) then
        some (x1 - y1 * (x2 - x1) / (y2 - y1))
      else none
    else none) = some v := by
  rw [if_pos hcond, hdx, hdy, hval, if_pos hv]

/-- Helper: evaluating one step of the breakeven scan when no sign change
fires. -/
theorem crossFn_none {x1 y1 x2 y2 : ℚ}
    (h1 : ¬(y1 ≤ 0 ∧ 0 < y2)) (h2 : ¬(0 ≤ y1 ∧ y2 < 0)) :
    (if (y1 ≤ 0 ∧ 0 < y2) ∨ (0 ≤ y1 ∧ y2 < 0) then
      if 0 ≤ x1 - y1 * (x2 - x1) / (y2 - y1) then
        some (x1 - y1 * (x2 - x1) / (y2 - y1))
      else none
    else none) = none := by
  rw [if_neg]
  rintro (h | h)
  · exact h1 h
  · exact h2 h

/-- Helper: the straddle's sign-change scan finds exactly the two
crossings `K − (p1+p2)` and `K + (p1+p2)`, in ascending order. -/
theorem straddle_crossings {K p1 p2 : ℚ} {c : ℤ} (hK : 0 < K) (hc : 0 < c)
    (hlo : 1 / 100 ≤ p1 + p2) (hhi : p1 + p2 < K / 2) :
    crossingPoints (pnlCurve (straddleLegs K p1 p2 c))
      = [K - (p1 + p2), K + (p1 + p2)] := by
  have hc0 : c ≠ 0 := hc.ne'
  have hcq : (0 : ℚ) < (c : ℚ) := by exact_mod_cast hc
  have hdpos : (0 : ℚ) < K / 500 := by positivity
  have hspos : (0 : ℚ) < p1 + p2 := lt_of_lt_of_le (by norm_num) hlo
  set t : ℚ := 500 * (p1 + p2) / K with ht_def
  have htpos : 0 < t := by positivity
  have ht250 : t < 250 := by
    rw [ht_def, div_lt_iff hK]
    linarith
  have hts : t * (K / 500) = p1 + p2 := by
    rw [ht_def]
    field_simp
  have hceil_pos : 0 < ⌈t⌉ := Int.ceil_pos.mpr htpos
  have hceil_le250 : ⌈t⌉ ≤ 250 := by
    apply Int.ceil_le.mpr
    push_cast
    linarith
  have hfloor_nonneg : 0 ≤ ⌊t⌋ := Int.floor_nonneg.mpr htpos.le
  have hfloor_lt250 : ⌊t⌋ < 250 := by
    apply Int.floor_lt.mpr
    push_cast
    linarith
  set na : ℕ := 250 - (⌈t⌉).toNat with hna_def
  set nb : ℕ := 250 + (⌊t⌋).toNat with hnb_def
  have htcZ : ((⌈t⌉).toNat : ℤ) = ⌈t⌉ := Int.toNat_of_nonneg hceil_pos.le
  have htfZ : ((⌊t⌋).toNat : ℤ) = ⌊t⌋ := Int.toNat_of_nonneg hfloor_nonneg
  have htc1 : 1 ≤ (⌈t⌉).toNat := by omega
  have htc250 : (⌈t⌉).toNat ≤ 250 := by omega
  have htf249 : (⌊t⌋).toNat ≤ 249 := by omega
  have hna249 : na ≤ 249 := by omega
  have hnb250 : 250 ≤ nb := by omega
  have hnb499 : nb ≤ 499 := by omega
  have hab : na < nb := by omega
  have hbn : nb < 500 := by omega
  set qc : ℚ := ((⌈t⌉ : ℤ) : ℚ) with hqc_def
  set qf : ℚ := ((⌊t⌋ : ℤ) : ℚ) with hqf_def
  have hqct : t ≤ qc := Int.le_ceil t
  have hqct1 : qc < t + 1 := Int.ceil_lt_add_one t
  have hqft : qf ≤ t := Int.floor_le t
  have hqft1 : t < qf + 1 := Int.lt_floor_add_one t
  have htcQ : ((⌈t⌉.toNat : ℕ) : ℚ) = qc := by
    rw [hqc_def]
    exact_mod_cast htcZ
  have htfQ : ((⌊t⌋.toNat : ℕ) : ℚ) = qf := by
    rw [hqf_def]
    exact_mod_cast htfZ
  have hna_q : (na : ℚ) = 250 - qc := by
    rw [hna_def, Nat.cast_sub htc250, htcQ]
    norm_num
  have hnb_q : (nb : ℚ) = 250 + qf := by
    rw [hnb_def, Nat.cast_add, htfQ]
    norm_num
  -- uniform reduced forms of the sampled payoff
  have hF_le : ∀ i : ℕ, i ≤ 250 →
      calculateStrategyPayoff (straddleLegs K p1 p2 c)
        (samplePrice (straddleLegs K p1 p2 c) i)
      = ((250 - (i : ℚ)) - t) * (K / 500) * c := by
    intro i hi
    rw [straddle_f_le hK hc0 hi]
    rw [show ((250 : ℚ) - i) * (K / 500) - (p1 + p2)
      = ((250 - (i : ℚ)) - t) * (K / 500) by rw [← hts]; ring]
  have hF_ge : ∀ i : ℕ, 250 ≤ i →
      calculateStrategyPayoff (straddleLegs K p1 p2 c)
        (samplePrice (straddleLegs K p1 p2 c) i)
      = (((i : ℚ) - 250) - t) * (K / 500) * c := by
    intro i hi
    rw [straddle_f_ge hK hc0 hi]
    rw [show ((i : ℚ) - 250) * (K / 500) - (p1 + p2)
      = (((i : ℚ) - 250) - t) * (K / 500) by rw [← hts]; ring]
  have hstep : ∀ i : ℕ,
      samplePrice (straddleLegs K p1 p2 c) (i + 1)
        - samplePrice (straddleLegs K p1 p2 c) i = K / 500 := by
    intro i
    rw [straddle_price hK, straddle_price hK]
    push_cast
    ring
  rw [crossingPoints_curve]
  refine filterMap_range_two 500 hab hbn ?_ ?_ ?_
  · -- descending crossing at index na
    have h1le : na ≤ 250 := by omega
    have h2le : na + 1 ≤ 250 := by omega
    have hdyA : calculateStrategyPayoff (straddleLegs K p1 p2 c)
          (samplePrice (straddleLegs K p1 p2 c) (na + 1))
        - calculateStrategyPayoff (straddleLegs K p1 p2 c)
          (samplePrice (straddleLegs K p1 p2 c) na) = -(K / 500 * c) := by
      rw [hF_le (na + 1) h2le, hF_le na h1le]
      push_cast
      ring
    refine crossFn_eval ?_ (hstep na) hdyA ?_ ?_
    · refine Or.inr ⟨?_, ?_⟩
      · rw [hF_le na h1le, hna_q]
        have hfac : (0 : ℚ) ≤ (250 - (250 - qc)) - t := by linarith
        exact mul_nonneg (mul_nonneg hfac hdpos.le) hcq.le
      · rw [hF_le (na + 1) h2le]
        have hcast : ((na + 1 : ℕ) : ℚ) = 250 - qc + 1 := by
          push_cast
          rw [hna_q]
        rw [hcast]
        have hfac : (250 - (250 - qc + 1)) - t < 0 := by linarith
        exact mul_neg_of_neg_of_pos (mul_neg_of_neg_of_pos hfac hdpos) hcq
    · rw [hF_le na h1le, straddle_price hK, ht_def]
      field_simp
      ring
    · linarith
  · -- ascending crossing at index nb
    have h1ge : 250 ≤ nb := hnb250
    have h2ge : 250 ≤ nb + 1 := by omega
    have hdyB : calculateStrategyPayoff (straddleLegs K p1 p2 c)
          (samplePrice (straddleLegs K p1 p2 c) (nb + 1))
        - calculateStrategyPayoff (straddleLegs K p1 p2 c)
          (samplePrice (straddleLegs K p1 p2 c) nb) = K / 500 * c := by
      rw [hF_ge (nb + 1) h2ge, hF_ge nb h1ge]
      push_cast
      ring
    refine crossFn_eval ?_ (hstep nb) hdyB ?_ ?_
    · refine Or.inl ⟨?_, ?_⟩
      · rw [hF_ge nb h1ge, hnb_q]
        have hfac : (250 + qf - 250) - t ≤ 0 := by linarith
        exact mul_nonpos_of_nonpos_of_nonneg
          (mul_nonpos_of_nonpos_of_nonneg hfac hdpos.le) hcq.le
      · rw [hF_ge (nb + 1) h2ge]
        have hcast : ((nb + 1 : ℕ) : ℚ) = 250 + qf + 1 := by
          push_cast
          rw [hnb_q]
        rw [hcast]
        have hfac : (0 : ℚ) < (250 + qf + 1 - 250) - t := by linarith
        exact mul_pos (mul_pos hfac hdpos) hcq
    · rw [hF_ge nb h1ge, straddle_price hK, ht_def]
      field_simp
      ring
    · positivity
  · -- every other pair shows no sign change
    intro i hi hia hib
    rcases Nat.lt_trichotomy i na with hlt | heq | hgt
    · -- strictly before the descending crossing: payoff stays positive
      have hi250 : i ≤ 250 := by omega
      have hi1250 : i + 1 ≤ 250 := by omega
      have hiq : (i : ℚ) + 1 ≤ 250 - qc := by
        have : (i : ℚ) + 1 ≤ (na : ℚ) := by exact_mod_cast hlt
        linarith [hna_q ▸ this]
      have hpos1 : 0 < calculateStrategyPayoff (straddleLegs K p1 p2 c)
          (samplePrice (straddleLegs K p1 p2 c) i) := by
        rw [hF_le i hi250]
        have hfac : (0 : ℚ) < (250 - (i : ℚ)) - t := by linarith
        exact mul_pos (mul_pos hfac hdpos) hcq
      have hpos2 : 0 ≤ calculateStrategyPayoff (straddleLegs K p1 p2 c)
          (samplePrice (straddleLegs K p1 p2 c) (i + 1)) := by
        rw [hF_le (i + 1) hi1250]
        have hfac : (0 : ℚ) ≤ (250 - ((i : ℕ) + 1 : ℕ)) - t := by
          push_cast
          linarith
        exact mul_nonneg (mul_nonneg hfac hdpos.le) hcq.le
      exact crossFn_none (fun h => absurd h.1 (not_le.mpr hpos1))
        (fun h => absurd h.2 (not_lt.mpr hpos2))
    · exact absurd heq hia
    · rcases Nat.lt_trichotomy i nb with hlt2 | heq2 | hgt2
      · -- strictly between the crossings: payoff stays nonpositive
        have hneg1 : calculateStrategyPayoff (straddleLegs K p1 p2 c)
            (samplePrice (straddleLegs K p1 p2 c) i) < 0 := by
          by_cases hi250 : i ≤ 250
          · rw [hF_le i hi250]
            have h1 : 250 - qc + 1 ≤ (i : ℚ) := by
              have : (na : ℚ) + 1 ≤ (i : ℚ) := by exact_mod_cast hgt
              linarith [hna_q ▸ this]
            have hfac : (250 - (i : ℚ)) - t < 0 := by linarith
            exact mul_neg_of_neg_of_pos (mul_neg_of_neg_of_pos hfac hdpos) hcq
          · have hi250' : 250 ≤ i := by omega
            rw [hF_ge i hi250']
            have h1 : (i : ℚ) ≤ 250 + qf - 1 := by
              have : (i : ℚ) + 1 ≤ (nb : ℚ) := by exact_mod_cast hlt2
              linarith [hnb_q ▸ this]
            have hfac : ((i : ℚ) - 250) - t < 0 := by linarith
            exact mul_neg_of_neg_of_pos (mul_neg_of_neg_of_pos hfac hdpos) hcq
        have hneg2 : calculateStrategyPayoff (straddleLegs K p1 p2 c)
            (samplePrice (straddleLegs K p1 p2 c) (i + 1)) ≤ 0 := by
          by_cases hi250 : i + 1 ≤ 250
          · rw [hF_le (i + 1) hi250]
            have h1 : 250 - qc + 1 ≤ (i : ℚ) + 1 := by
              have : (na : ℚ) + 1 ≤ (i : ℚ) + 1 := by
                exact_mod_cast Nat.succ_le_succ hgt.le
              linarith [hna_q ▸ this]
            have hfac : (250 - ((i : ℕ) + 1 : ℕ)) - t ≤ 0 := by
              push_cast
              linarith
            exact mul_nonpos_of_nonpos_of_nonneg
              (mul_nonpos_of_nonpos_of_nonneg hfac hdpos.le) hcq.le
          · have hi250' : 250 ≤ i + 1 := by omega
            rw [hF_ge (i + 1) hi250']
            have h1 : (i : ℚ) + 1 ≤ 250 + qf := by
              have : (i : ℚ) + 1 ≤ (nb : ℚ) := by exact_mod_cast hlt2
              linarith [hnb_q ▸ this]
            have hfac : (((i : ℕ) + 1 : ℕ) - 250 : ℚ) - t ≤ 0 := by
              push_cast
              linarith
            exact mul_nonpos_of_nonpos_of_nonneg
              (mul_nonpos_of_nonpos_of_nonneg hfac hdpos.le) hcq.le
        exact crossFn_none (fun h => absurd h.2 (not_lt.mpr hneg2))
          (fun h => absurd h.1 (not_le.mpr hneg1))
      · exact absurd heq2 hib
      · -- strictly after the ascending crossing: payoff stays positive
        have hi250 : 250 ≤ i := by omega
        have hi1250 : 250 ≤ i + 1 := by omega
        have hiq : 250 + qf + 1 ≤ (i : ℚ) := by
          have : (nb : ℚ) + 1 ≤ (i : ℚ) := by exact_mod_cast hgt2
          linarith [hnb_q ▸ this]
        have hpos1 : 0 < calculateStrategyPayoff (straddleLegs K p1 p2 c)
            (samplePrice (straddleLegs K p1 p2 c) i) := by
          rw [hF_ge i hi250]
          have hfac : (0 : ℚ) < ((i : ℚ) - 250) - t := by linarith
          exact mul_pos (mul_pos hfac hdpos) hcq
        have hpos2 : 0 < calculateStrategyPayoff (straddleLegs K p1 p2 c)
            (samplePrice (straddleLegs K p1 p2 c) (i + 1)) := by
          rw [hF_ge (i + 1) hi1250]
          have hfac : (0 : ℚ) < (((i : ℕ) + 1 : ℕ) - 250 : ℚ) - t := by
            push_cast
            linarith
          exact mul_pos (mul_pos hfac hdpos) hcq
        exact crossFn_none (fun h => absurd h.1 (not_le.mpr hpos1))
          (fun h => absurd h.2 (not_lt.mpr hpos2.le))

/-- Helper: 2-decimal rounding is strictly monotone across a gap of at
least one cent. -/
theorem round2_lt {q r : ℚ} (h : q + 1 / 100 ≤ r) : round2 q < round2 r := by
  rw [round2_eq, round2_eq]
  have hfloor : ⌊q * 100 + 1 / 2⌋ + 1 ≤ ⌊r * 100 + 1 / 2⌋ := by
    rw [show ⌊q * 100 + 1 / 2⌋ + 1 = ⌊q * 100 + 1 / 2 + 1⌋ by
      rw [Int.floor_add_one]]
    exact Int.floor_le_floor (by linarith)
  have hq : ((⌊q * 100 + 1 / 2⌋ : ℤ) : ℚ) + 1 ≤ ((⌊r * 100 + 1 / 2⌋ : ℤ) : ℚ) := by
    exact_mod_cast hfloor
  linarith

/-- Helper: `sortedDedup` of an ascending pair is the pair itself. -/
theorem sortedDedup_pair {x y : ℚ} (hxy : x < y) : sortedDedup [x, y] = [x, y] := by
  unfold sortedDedup
  have h1 : ([x, y] : List ℚ).dedup = [x, y] :=
    List.dedup_eq_self.mpr (by simp [hxy.ne])
  rw [h1]
  simp [List.insertionSort, List.orderedInsert, hxy.le]

set_option maxRecDepth 4096 in
/-- Helper: full characterisation of the metrics of a long straddle whose
total premium is at least one cent and below half the strike: maxProfit is
the bounded rounded sample maximum `(K/2 − (p1+p2))·c` (not Unbounded — the
Unbounded overrides exist only for single legs), maxLoss is the rounded
sample minimum `−(p1+p2)·c` (a negative payoff, not the positive magnitude),
and the breakevens are the rounded `K ∓ (p1+p2)`. -/
theorem straddle_metrics {K p1 p2 : ℚ} {c : ℤ} (hK : 0 < K) (hc : 0 < c)
    (hlo : 1 / 100 ≤ p1 + p2) (hhi : p1 + p2 < K / 2) (ap mr : Option ℚ) :
    (calculateStrategyMetrics (straddleLegs K p1 p2 c) ap mr).maxProfit
        = MetricVal.val (round2 ((K / 2 - (p1 + p2)) * c)) ∧
    (calculateStrategyMetrics (straddleLegs K p1 p2 c) ap mr).maxLoss
        = MetricVal.val (round2 (-((p1 + p2) * c))) ∧
    (calculateStrategyMetrics (straddleLegs K p1 p2 c) ap mr).breakevens
        = [round2 (K - (p1 + p2)), round2 (K + (p1 + p2))] := by
  have hbe : breakevensOf (straddleLegs K p1 p2 c)
      = [round2 (K - (p1 + p2)), round2 (K + (p1 + p2))] := by
    rw [breakevensOf, straddle_crossings hK hc hlo hhi, List.map_cons,
      List.map_cons, List.map_nil]
    apply sortedDedup_pair
    apply round2_lt
    linarith
  refine ⟨?_, ?_, ?_⟩
  · show roundMV (MetricVal.val (sampledMax (straddleLegs K p1 p2 c))) = _
    rw [roundMV, straddle_sampledMax hK hc]
  · show roundMV (MetricVal.val (sampledMin (straddleLegs K p1 p2 c))) = _
    rw [roundMV, straddle_sampledMin hK hc]
  · exact hbe

/-- C5 (amended): for a straddle (Buy Call + Buy Put at strike `K`,
premiums `p1, p2` with `0.01 ≤ p1+p2 < K/2`, equal contracts `c > 0`) the
metrics are: breakevens `[K−(p1+p2), K+(p1+p2)]` (rounded to 2 decimals) as
the claim states, but maxLoss is the sampled minimum `−(p1+p2)·c` — the
loss reported as a negative payoff, not the positive magnitude
`(p1+p2)·contracts` — and maxProfit is the bounded sampled maximum
`(K/2−(p1+p2))·c` at the edge of the sampling range, not Unbounded: the
final revision applies Unbounded overrides only to single-leg
strategies. -/
theorem c5_straddle_metrics {K p1 p2 : ℚ} {c : ℤ} (hK : 0 < K) (hc : 0 < c)
    (hlo : 1 / 100 ≤ p1 + p2) (hhi : p1 + p2 < K / 2) (ap mr : Option ℚ) :
    (calculateStrategyMetrics (straddleLegs K p1 p2 c) ap mr).breakevens
        = [round2 (K - (p1 + p2)), round2 (K + (p1 + p2))] ∧
    (calculateStrategyMetrics (straddleLegs K p1 p2 c) ap mr).maxLoss
        = MetricVal.val (round2 (-((p1 + p2) * c))) ∧
    (calculateStrategyMetrics (straddleLegs K p1 p2 c) ap mr).maxProfit
        = MetricVal.val (round2 ((K / 2 - (p1 + p2)) * c)) := by
  obtain ⟨h1, h2, h3⟩ := straddle_metrics hK hc hlo hhi ap mr
  exact ⟨h3, h2, h1⟩

/-- C5 witness: the concrete straddle `K = 100`, `p1 = p2 = 5`, one
contract. -/
theorem c5_straddle_metrics_witness :
    (calculateStrategyMetrics (straddleLegs 100 5 5 1) none none).breakevens
        = [round2 (100 - (5 + 5)), round2 (100 + (5 + 5))] ∧
    (calculateStrategyMetrics (straddleLegs 100 5 5 1) none none).maxLoss
        = MetricVal.val (round2 (-((5 + 5) * 1))) :=
  ⟨(@c5_straddle_metrics 100 5 5 1 (by norm_num) (by norm_num) (by norm_num)
      (by norm_num) none none).1,
    (@c5_straddle_metrics 100 5 5 1 (by norm_num) (by norm_num) (by norm_num)
      (by norm_num) none none).2.1⟩

/-- C5 counterexample: for the straddle `K = 100`, `p1 = p2 = 5`, one
contract, the metrics engine returns maxProfit `40` (a bounded value, not
Unbounded) and maxLoss `−10` (not the claimed `+10 = (p1+p2)·contracts`),
while the breakevens are `[90, 110]` as claimed. -/
theorem c5_counterexample :
    (calculateStrategyMetrics (straddleLegs 100 5 5 1) none none).maxProfit
        ≠ MetricVal.unbounded ∧
    (calculateStrategyMetrics (straddleLegs 100 5 5 1) none none).maxLoss
        ≠ MetricVal.val 10 ∧
    (calculateStrategyMetrics (straddleLegs 100 5 5 1) none none).maxProfit
        = MetricVal.val 40 ∧
    (calculateStrategyMetrics (straddleLegs 100 5 5 1) none none).maxLoss
        = MetricVal.val (-10) ∧
    (calculateStrategyMetrics (straddleLegs 100 5 5 1) none none).breakevens
        = [90, 110] := by
  obtain ⟨h1, h2, h3⟩ := @straddle_metrics 100 5 5 1
    (by norm_num) (by norm_num) (by norm_num) (by norm_num) none none
  have h40 : round2 ((100 / 2 - ((5 : ℚ) + 5)) * ((1 : ℤ) : ℚ)) = 40 := by
    rw [round2_eq]
    norm_num
  have hm10 : round2 (-(((5 : ℚ) + 5) * ((1 : ℤ) : ℚ))) = -10 := by
    rw [round2_eq]
    norm_num
  have h90 : round2 ((100 : ℚ) - (5 + 5)) = 90 := by
    rw [round2_eq]
    norm_num
  have h110 : round2 ((100 : ℚ) + (5 + 5)) = 110 := by
    rw [round2_eq]
    norm_num
  rw [h40] at h1
  rw [hm10] at h2
  rw [h90, h110] at h3
  refine ⟨?_, ?_, h1, h2, h3⟩
  · rw [h1]
    intro h
    cases h
  · rw [h2]
    intro h
    rw [MetricVal.val.injEq] at h
    norm_num at h

/-- C7 witness: for the concrete straddle `K = 100`, `p1 = p2 = 5` the
breakeven `90` is nonnegative and is the rounding of an interpolated sign
change of the sampled curve. -/
theorem c7_breakevens_invariant_witness :
    0 ≤ (90 : ℚ) ∧
    ∃ c ∈ crossingPoints (pnlCurve (straddleLegs 100 5 5 1)), (90 : ℚ) = round2 c := by
  have hbs := (@straddle_metrics 100 5 5 1
    (by norm_num) (by norm_num) (by norm_num) (by norm_num) none none).2.2
  have h90 : round2 ((100 : ℚ) - (5 + 5)) = 90 := by
    rw [round2_eq]
    norm_num
  refine (c7_breakevens_invariant (straddleLegs 100 5 5 1) none none).2 90 ?_
  rw [hbs, h90]
  exact List.mem_cons_self 90 _

/-- C9 counterexample: two same-type legs given in descending strike order
are reordered in the caller's array by the classifier's in-place sort, so
the array is not left unchanged. -/
theorem c9_counterexample :
    detectStrategyFinalLegs [buyCall 110 5, buyCall 100 5] ≠ [buyCall 110 5, buyCall 100 5] ∧
    detectStrategyFinalLegs [buyCall 110 5, buyCall 100 5] = [buyCall 100 5, buyCall 110 5] := by
  have h : detectStrategyFinalLegs [buyCall 110 5, buyCall 100 5]
      = [buyCall 100 5, buyCall 110 5] := by
    simp [detectStrategyFinalLegs, validStrikes, sortLegsByStrike, List.insertionSort,
      List.orderedInsert, strikeRaw, buyCall, List.dedup, List.pwFilter, optionCompOf]
    exact_mod_cast (by norm_num : (100 : ℚ) < 110)
  refine ⟨?_, h⟩
  rw [h]
  simp [buyCall]

end OptTracker
